import Mathlib

/-!
A verification development for the local vector-similarity index with MMR
re-ranking and RAG query pipeline specified for this repository.  The
repository source is a notebook that delegates every operation named by the
specification (similarity search, MMR retrieval, retrieval QA) to external
services, so the definitions below are modelled from the specification text
and checked against the properties it states.  Rational coordinates stand in
for floating-point numbers so that all index arithmetic is exact; real-valued
similarity scores (which involve square roots) are expressed through an
order-faithful rational encoding, and the bridge between the two is proved.
-/

namespace VStore

/-- Modelled from the spec: a vector is an ordered sequence of numbers; every
vector of a collection has the collection's fixed dimension. -/
abbrev Vec := List ℚ

/-- Modelled from the spec: a stored record with a stable id, a vector and an
immutable payload snapshot (a mapping from string keys to text values). -/
structure VectorRecord where
  id : ℕ
  vector : Vec
  payload : List (String × String)
deriving DecidableEq

/-- Modelled from the spec: the distance metric, fixed at collection creation. -/
inductive Metric where
  | cosine
  | dotProduct
  | euclidean
deriving DecidableEq

/-- Modelled from the spec: the error taxonomy of section 7. -/
inductive VErr where
  | DimensionMismatch
  | DuplicateId
  | NotFound
  | ZeroVector
  | InvalidConfig
  | Timeout
  | EmbeddingUnavailable
  | GenerationUnavailable
deriving DecidableEq

/-- Dot product of two vectors. -/
def dot (a b : Vec) : ℚ := (List.zipWith (fun x y => x * y) a b).sum

/-- Squared euclidean norm of a vector. -/
def sqnorm (a : Vec) : ℚ := dot a a

/-- Squared euclidean distance between two vectors. -/
def sqdist (a b : Vec) : ℚ := (List.zipWith (fun x y => (x - y) ^ 2) a b).sum

/-- Sign-preserving square on the rationals; an order embedding used to
compare cosine similarities without forming square roots. -/
def signedSq (x : ℚ) : ℚ := if x < 0 then -(x ^ 2) else x ^ 2

/-- The rational ranking score of a stored vector v against a query q under
metric m; higher is better.  For dot-product it is the dot product itself, for
cosine the signed squared cosine, for euclidean the negated squared distance;
each is a strictly monotone image of the true metric score, proved below. -/
def rank (m : Metric) (q v : Vec) : ℚ :=
  match m with
  | .cosine => signedSq (dot q v) / (sqnorm q * sqnorm v)
  | .dotProduct => dot q v
  | .euclidean => - sqdist q v

/-- The euclidean norm of a vector, as a real number. -/
noncomputable def normR (a : Vec) : ℝ := Real.sqrt ((sqnorm a : ℝ))

/-- Modelled from the spec (section 4.2): the cosine similarity value
dot(a,b) / (norm a * norm b), higher means more similar. -/
noncomputable def cosR (a b : Vec) : ℝ := ((dot a b : ℝ)) / (normR a * normR b)

/-- The euclidean distance between two vectors, as a real number. -/
noncomputable def distR (a b : Vec) : ℝ := Real.sqrt ((sqdist a b : ℝ))

/-- The true similarity score of the configured metric, higher is more
similar; for euclidean this is the negated distance. -/
noncomputable def simR (m : Metric) (a b : Vec) : ℝ :=
  match m with
  | .cosine => cosR a b
  | .dotProduct => ((dot a b : ℝ))
  | .euclidean => - distR a b

/-- Sign-preserving square on the reals. -/
noncomputable def signedSqR (x : ℝ) : ℝ := if x < 0 then -(x ^ 2) else x ^ 2

/-- Modelled from the spec: an ephemeral query result carrying the record id,
the score (the order-faithful rational rank of the configured metric), the
stored vector (needed for MMR) and the payload. -/
structure QueryResult where
  record_id : ℕ
  score : ℚ
  vector : Vec
  payload : List (String × String)
deriving DecidableEq

/-- Best-first ordering on query results: higher score first, equal scores in
ascending order of record id. -/
def qrBetter (x y : QueryResult) : Prop :=
  y.score < x.score ∨ (x.score = y.score ∧ x.record_id ≤ y.record_id)

instance : DecidableRel qrBetter := fun x y => by
  unfold qrBetter
  infer_instance

instance : IsTotal QueryResult qrBetter := by
  constructor
  intro x y
  unfold qrBetter
  rcases lt_trichotomy x.score y.score with h | h | h
  · exact Or.inr (Or.inl h)
  · rcases Nat.le_total x.record_id y.record_id with hid | hid
    · exact Or.inl (Or.inr ⟨h, hid⟩)
    · exact Or.inr (Or.inr ⟨h.symm, hid⟩)
  · exact Or.inl (Or.inl h)

instance : IsTrans QueryResult qrBetter := by
  constructor
  intro x y z hxy hyz
  unfold qrBetter at hxy hyz ⊢
  rcases hxy with h1 | ⟨h1, h1id⟩ <;> rcases hyz with h2 | ⟨h2, h2id⟩
  · exact Or.inl (lt_trans h2 h1)
  · exact Or.inl (h2 ▸ h1)
  · exact Or.inl (by rw [h1]; exact h2)
  · exact Or.inr ⟨h1.trans h2, le_trans h1id h2id⟩

/-- Turn a stored record into a query result for query q under metric m. -/
def toResult (m : Metric) (q : Vec) (r : VectorRecord) : QueryResult :=
  ⟨r.id, rank m q r.vector, r.vector, r.payload⟩

/-- Modelled from the spec: a named collection of records sharing one
dimension and one distance metric, keyed by id with no duplicate ids. -/
structure Collection where
  name : String
  dim : ℕ
  metric : Metric
  records : List VectorRecord
  nodup_ids : (records.map VectorRecord.id).Nodup
  dims_ok : ∀ r ∈ records, r.vector.length = dim

/-- Modelled from the spec (section 4.1): insert fails with DimensionMismatch
when the vector length differs from the collection dimension, with
DuplicateId when the id is already present, and otherwise appends the
record. -/
def Collection.insert (c : Collection) (r : VectorRecord) : Except VErr Collection :=
  if h1 : r.vector.length = c.dim then
    if h2 : ∃ s ∈ c.records, s.id = r.id then .error .DuplicateId
    else
      .ok { name := c.name, dim := c.dim, metric := c.metric,
            records := c.records ++ [r],
            nodup_ids := by
              rw [List.map_append, List.nodup_append]
              refine ⟨c.nodup_ids, by simp, ?_⟩
              intro a ha hb
              rcases List.mem_map.1 ha with ⟨s, hs, hsa⟩
              simp only [List.map_cons, List.map_nil, List.mem_singleton] at hb
              exact h2 ⟨s, hs, by rw [hsa, hb]⟩,
            dims_ok := by
              intro s hs
              rcases List.mem_append.1 hs with h | h
              · exact c.dims_ok s h
              · rw [List.mem_singleton.1 h]
                exact h1 }
  else .error .DimensionMismatch

/-- Insert viewed as a state transition: on failure the collection is
returned unchanged together with the error. -/
def Collection.insertRun (c : Collection) (r : VectorRecord) : Collection × Option VErr :=
  match c.insert r with
  | .ok c2 => (c2, none)
  | .error e => (c, some e)

/-- Modelled from the spec (section 4.2): exact brute-force search returning
the top k records best-first with ascending-id tie-break; under the cosine
metric a zero query or stored vector makes the similarity undefined and the
query fails with ZeroVector. -/
def Collection.search (c : Collection) (q : Vec) (k : ℕ) : Except VErr (List QueryResult) :=
  if c.metric = .cosine ∧ (sqnorm q = 0 ∨ ∃ r ∈ c.records, sqnorm r.vector = 0) then
    .error .ZeroVector
  else
    .ok ((List.insertionSort qrBetter (c.records.map (toResult c.metric q))).take k)

/-- The best-first ordering of the specification stated on the true metric
values: non-increasing similarity (non-decreasing distance for euclidean),
and any two results with equal scores in ascending id order. -/
def metricBetter (m : Metric) (q : Vec) (x y : QueryResult) : Prop :=
  match m with
  | .euclidean =>
      distR q x.vector ≤ distR q y.vector ∧
      (distR q x.vector = distR q y.vector → x.record_id ≤ y.record_id)
  | .cosine =>
      cosR q y.vector ≤ cosR q x.vector ∧
      (cosR q x.vector = cosR q y.vector → x.record_id ≤ y.record_id)
  | .dotProduct =>
      dot q y.vector ≤ dot q x.vector ∧
      (dot q x.vector = dot q y.vector → x.record_id ≤ y.record_id)

section MMR

variable {α : Type} {S : Type} [LinearOrderedField S]

/-- Modelled from the spec (section 4.3): the redundancy of a candidate is
the maximum similarity to an already selected item, and 0 when nothing has
been selected yet. -/
def redundancy (sim : α → α → S) (selected : List α) (c : α) : S :=
  match selected.map (fun s => sim c s) with
  | [] => 0
  | x :: xs => xs.foldl max x

/-- Modelled from the spec (section 4.3): the MMR score of a candidate. -/
def mmrScore (lam : S) (rel : α → S) (sim : α → α → S) (selected : List α) (c : α) : S :=
  lam * rel c - (1 - lam) * redundancy sim selected c

/-- Pick the candidate with the highest score, breaking score ties by the
lowest id, and remaining ties by the earliest list position. -/
def pickMMR (score : α → S) (ids : α → ℕ) : List α → Option α
  | [] => none
  | c :: rest =>
    match pickMMR score ids rest with
    | none => some c
    | some b => if score c < score b ∨ (score b = score c ∧ ids b < ids c) then some b else some c

/-- Modelled from the spec (section 4.3): iterative MMR selection, stopping
after k picks or when the candidates are exhausted, returned in selection
order. -/
def mmrSelect [DecidableEq α] (lam : S) (rel : α → S) (sim : α → α → S) (ids : α → ℕ) :
    ℕ → List α → List α → List α
  | 0, _, _ => []
  | k + 1, selected, remaining =>
    match pickMMR (mmrScore lam rel sim selected) ids remaining with
    | none => []
    | some c => c :: mmrSelect lam rel sim ids k (selected ++ [c]) (remaining.erase c)

/-- The candidate c belongs to the pool, no candidate scores strictly
higher, and among the equal scorers c has the least id. -/
def IsBestCandidate (score : α → S) (ids : α → ℕ) (pool : List α) (c : α) : Prop :=
  c ∈ pool ∧ ∀ x ∈ pool, score x < score c ∨ (score x = score c ∧ ids c ≤ ids x)

/-- Modelled from the spec (section 4.3): the MMR iteration as a relation.
MMRSpec lam rel sim ids k selected remaining out holds when out is a
sequence the loop of the spec can produce from this state. -/
inductive MMRSpec [DecidableEq α] (lam : S) (rel : α → S) (sim : α → α → S) (ids : α → ℕ) :
    ℕ → List α → List α → List α → Prop where
  | stop (selected remaining) : MMRSpec lam rel sim ids 0 selected remaining []
  | exhausted (k selected) : MMRSpec lam rel sim ids (k + 1) selected [] []
  | step (k : ℕ) (selected remaining : List α) (c : α) (out : List α) :
      IsBestCandidate (mmrScore lam rel sim selected) ids remaining c →
      MMRSpec lam rel sim ids k (selected ++ [c]) (remaining.erase c) out →
      MMRSpec lam rel sim ids (k + 1) selected remaining (c :: out)

end MMR

/-- Modelled from the spec (section 3): the search type of a retrieval. -/
inductive SearchType where
  | similarity
  | mmr
deriving DecidableEq

/-- Modelled from the spec (section 3): retrieval configuration. -/
structure RetrievalConfig where
  k : ℕ
  fetch_k : ℕ
  lambda_mult : ℚ
  search_type : SearchType
deriving DecidableEq

/-- Render a payload as text for prompting. -/
def payloadText (p : List (String × String)) : String :=
  String.intercalate ", " (p.map (fun kv => kv.1 ++ ": " ++ kv.2))

/-- Modelled from the spec (section 4.5): the grounded prompt concatenates
the retrieved payload texts with the question; an empty retrieval is flagged
in the prompt instead of blocking. -/
def buildPrompt (docs : List QueryResult) (question : String) : String :=
  (if docs.isEmpty then "NO GROUNDING CONTEXT FOUND. " else "") ++
    String.intercalate " | " (docs.map (fun d => payloadText d.payload)) ++
    " Question: " ++ question

/-- Modelled from the spec (section 4.4): the Retriever facade embeds the
query, searches with fetch_k (mmr) or k (similarity), reranks with MMR using
the true metric similarity when requested, and propagates failures; a
lambda_mult outside the unit interval fails with InvalidConfig. -/
noncomputable def Collection.retrieve (c : Collection)
    (embed : String → Except VErr Vec) (cfg : RetrievalConfig)
    (queryText : String) : Except VErr (List QueryResult) :=
  match embed queryText with
  | .error e => .error e
  | .ok qv =>
    match cfg.search_type with
    | .similarity => c.search qv cfg.k
    | .mmr =>
      match c.search qv cfg.fetch_k with
      | .error e => .error e
      | .ok pool =>
        if 0 ≤ cfg.lambda_mult ∧ cfg.lambda_mult ≤ 1 then
          .ok (mmrSelect ((cfg.lambda_mult : ℝ))
            (fun x => simR c.metric qv x.vector)
            (fun x y => simR c.metric x.vector y.vector)
            QueryResult.record_id cfg.k [] pool)
        else .error .InvalidConfig

/-- Modelled from the spec (section 4.5): the states of the RAG pipeline. -/
inductive PState where
  | Idle
  | Embedding
  | Retrieving
  | Reranking
  | Prompting
  | Generating
  | Done
  | Failed
deriving DecidableEq

/-- Modelled from the spec (section 4.5): the answer of a successful RAG
query. -/
structure RAGResult where
  answer_text : String
  source_documents : List QueryResult
deriving DecidableEq

/-- Modelled from the spec (section 4.5): the RAG pipeline as a state
machine; the returned list is the sequence of states entered, ending in Done
or Failed; stages after a failing one are never entered and no partial
result is produced. -/
noncomputable def answerTrace (embed : String → Except VErr Vec)
    (generate : String → Except VErr String) (c : Collection)
    (cfg : RetrievalConfig) (question : String) :
    List PState × Except VErr RAGResult :=
  match embed question with
  | .error e => ([.Idle, .Embedding, .Failed], .error e)
  | .ok qv =>
    match cfg.search_type with
    | .similarity =>
      match c.search qv cfg.k with
      | .error e => ([.Idle, .Embedding, .Retrieving, .Failed], .error e)
      | .ok docs =>
        match generate (buildPrompt docs question) with
        | .error e =>
          ([.Idle, .Embedding, .Retrieving, .Prompting, .Generating, .Failed], .error e)
        | .ok ans =>
          ([.Idle, .Embedding, .Retrieving, .Prompting, .Generating, .Done],
            .ok ⟨ans, docs⟩)
    | .mmr =>
      match c.search qv cfg.fetch_k with
      | .error e => ([.Idle, .Embedding, .Retrieving, .Failed], .error e)
      | .ok pool =>
        if 0 ≤ cfg.lambda_mult ∧ cfg.lambda_mult ≤ 1 then
          match generate (buildPrompt (mmrSelect ((cfg.lambda_mult : ℝ))
              (fun x => simR c.metric qv x.vector)
              (fun x y => simR c.metric x.vector y.vector)
              QueryResult.record_id cfg.k [] pool) question) with
          | .error e =>
            ([.Idle, .Embedding, .Retrieving, .Reranking, .Prompting, .Generating,
              .Failed], .error e)
          | .ok ans =>
            ([.Idle, .Embedding, .Retrieving, .Reranking, .Prompting, .Generating,
              .Done],
              .ok ⟨ans, mmrSelect ((cfg.lambda_mult : ℝ))
                (fun x => simR c.metric qv x.vector)
                (fun x y => simR c.metric x.vector y.vector)
                QueryResult.record_id cfg.k [] pool⟩)
        else
          ([.Idle, .Embedding, .Retrieving, .Reranking, .Failed], .error .InvalidConfig)

/-- Modelled from the spec (section 4.5): answer returns the generation
response with the retrieved sources, or the first error. -/
noncomputable def answer (embed : String → Except VErr Vec)
    (generate : String → Except VErr String) (c : Collection)
    (cfg : RetrievalConfig) (question : String) : Except VErr RAGResult :=
  (answerTrace embed generate c cfg question).2

/-- Modelled from the notebook: the environment after the build cells, with
the persisted Qdrant collection my_movies and the separate in-memory index
built by VectorstoreIndexCreator from the CSV loader. -/
structure NotebookEnv where
  qdrant : Collection
  docsearch : Collection

/-- The configuration of the notebook's RetrievalQA chain: a plain
similarity retriever with the default k of 4. -/
def chainCfg : RetrievalConfig := ⟨4, 20, 1, .similarity⟩

/-- Modelled from the notebook wiring: chain.invoke runs the RAG pipeline
against docsearch.vectorstore.as_retriever() and leaves the environment
unchanged; the Qdrant collection is not consulted. -/
noncomputable def chainInvoke (env : NotebookEnv)
    (embed : String → Except VErr Vec) (generate : String → Except VErr String)
    (question : String) : NotebookEnv × Except VErr RAGResult :=
  (env, answer embed generate env.docsearch chainCfg question)

/-- Modelled from the spec (section 4.2): standalone cosine similarity;
undefined (ZeroVector) exactly when one of the vectors has zero norm. -/
noncomputable def cosineSimE (a b : Vec) : Except VErr ℝ :=
  if sqnorm a = 0 ∨ sqnorm b = 0 then .error .ZeroVector
  else .ok (((dot a b : ℝ)) / (normR a * normR b))

def sampleRec0 : VectorRecord := ⟨0, [1, 0], [("title", "a")]⟩

def sampleRec1 : VectorRecord := ⟨1, [0, 1], [("title", "b")]⟩

/-- A small dot-product collection used to evaluate the theorems on concrete
data. -/
def sampleCol : Collection :=
  ⟨"movies", 2, .dotProduct, [sampleRec0, sampleRec1], by decide, by decide⟩

/-- A similarity-search configuration with k = 1. -/
def simCfg : RetrievalConfig := ⟨1, 2, 1, .similarity⟩

def cex4Rec : VectorRecord := ⟨0, [2], []⟩

/-- A one-record dot-product collection. -/
def cex4Dot : Collection := ⟨"cd", 1, .dotProduct, [cex4Rec], by decide, by decide⟩

/-- A one-record cosine collection whose stored vector is parallel to the
later query. -/
def cex4Cos : Collection := ⟨"cc", 1, .cosine, [cex4Rec], by decide, by decide⟩

/-- A one-record cosine collection orthogonal to the later insert. -/
def c4wCol : Collection := ⟨"cw", 2, .cosine, [⟨0, [1, 0], []⟩], by decide, by decide⟩

/-- c4wCol after inserting record 1 with vector [0, 1]. -/
def c4wCol2 : Collection :=
  ⟨"cw", 2, .cosine, [⟨0, [1, 0], []⟩, ⟨1, [0, 1], []⟩], by decide, by decide⟩

def wpool : List QueryResult := [⟨0, 1, [1, 0], []⟩, ⟨1, 0, [0, 1], []⟩]

def wrel : QueryResult → ℚ := fun x => x.score

def wsim : QueryResult → QueryResult → ℚ := fun x y => dot x.vector y.vector

theorem dot_nil_left (b : Vec) : dot [] b = 0 := rfl

theorem dot_nil_right (a : Vec) : dot a [] = 0 := by
  unfold dot
  cases a <;> rfl

theorem dot_cons (x y : ℚ) (a b : Vec) :
    dot (x :: a) (y :: b) = x * y + dot a b := by
  unfold dot
  simp [List.zipWith]

theorem sqnorm_nil : sqnorm [] = 0 := rfl

theorem sqnorm_cons (x : ℚ) (a : Vec) :
    sqnorm (x :: a) = x ^ 2 + sqnorm a := by
  unfold sqnorm
  rw [dot_cons]
  ring

theorem sqnorm_nonneg (a : Vec) : 0 ≤ sqnorm a := by
  induction a with
  | nil => simp [sqnorm_nil]
  | cons x t ih =>
    rw [sqnorm_cons]
    positivity

theorem sqdist_nonneg (a b : Vec) : 0 ≤ sqdist a b := by
  unfold sqdist
  induction a generalizing b with
  | nil => simp
  | cons x t ih =>
    cases b with
    | nil => simp
    | cons y s =>
      simp only [List.zipWith, List.sum_cons]
      have h1 := ih s
      positivity

/-- The Cauchy--Schwarz inequality for the list dot product. -/
theorem dot_sq_le (a b : Vec) : dot a b ^ 2 ≤ sqnorm a * sqnorm b := by
  induction a generalizing b with
  | nil =>
    simp [dot_nil_left, sqnorm_nil]
  | cons x t ih =>
    cases b with
    | nil =>
      simp [dot_nil_right, sqnorm_nil]
    | cons y s =>
      rw [dot_cons, sqnorm_cons, sqnorm_cons]
      have hA : 0 ≤ sqnorm t := sqnorm_nonneg t
      have hB : 0 ≤ sqnorm s := sqnorm_nonneg s
      have hd : dot t s ^ 2 ≤ sqnorm t * sqnorm s := ih s
      set A := sqnorm t with hAdef
      set B := sqnorm s with hBdef
      set d := dot t s with hddef
      rcases eq_or_lt_of_le hB with hB0 | hBpos
      · have hd0 : d = 0 := by
          have : d ^ 2 ≤ 0 := by rw [← hB0] at hd; linarith [hd]
          nlinarith [sq_nonneg d]
        rw [hd0, ← hB0]
        nlinarith [mul_nonneg hA (sq_nonneg y)]
      · have key : B * ((x ^ 2 + A) * (y ^ 2 + B) - (x * y + d) ^ 2) =
            (x * B - y * d) ^ 2 + y ^ 2 * (A * B - d ^ 2) + B * (A * B - d ^ 2) := by
          ring
        have hnn : 0 ≤ (x * B - y * d) ^ 2 + y ^ 2 * (A * B - d ^ 2) + B * (A * B - d ^ 2) := by
          have h1 : 0 ≤ A * B - d ^ 2 := by linarith
          have h2 : 0 ≤ y ^ 2 * (A * B - d ^ 2) := mul_nonneg (sq_nonneg y) h1
          have h3 : 0 ≤ B * (A * B - d ^ 2) := mul_nonneg (le_of_lt hBpos) h1
          positivity
        have : 0 ≤ (x ^ 2 + A) * (y ^ 2 + B) - (x * y + d) ^ 2 := by
          rw [← mul_nonneg_iff_of_pos_left hBpos, key]
          exact hnn
        linarith

theorem signedSqR_strictMono : StrictMono signedSqR := by
  intro x y hxy
  unfold signedSqR
  split_ifs with h1 h2 h2
  · nlinarith
  · nlinarith
  · nlinarith
  · nlinarith

theorem signedSqR_le_iff {a b : ℝ} : signedSqR a ≤ signedSqR b ↔ a ≤ b :=
  signedSqR_strictMono.le_iff_le

theorem signedSqR_lt_iff {a b : ℝ} : signedSqR a < signedSqR b ↔ a < b :=
  signedSqR_strictMono.lt_iff_lt

theorem signedSqR_inj {a b : ℝ} : signedSqR a = signedSqR b ↔ a = b :=
  signedSqR_strictMono.injective.eq_iff

theorem signedSq_cast (x : ℚ) : ((signedSq x : ℚ) : ℝ) = signedSqR ((x : ℝ)) := by
  unfold signedSq signedSqR
  rcases lt_or_le x 0 with h | h
  · rw [if_pos h, if_pos (by exact_mod_cast h)]
    push_cast
    ring
  · rw [if_neg (not_lt.2 h), if_neg (not_lt.2 (by exact_mod_cast h))]
    push_cast
    ring

theorem sqnorm_pos_of_ne (a : Vec) (h : sqnorm a ≠ 0) : 0 < sqnorm a :=
  lt_of_le_of_ne (sqnorm_nonneg a) (Ne.symm h)

theorem normR_pos (a : Vec) (h : sqnorm a ≠ 0) : 0 < normR a := by
  unfold normR
  rw [Real.sqrt_pos]
  exact_mod_cast sqnorm_pos_of_ne a h

theorem normR_ne_zero (a : Vec) (h : sqnorm a ≠ 0) : normR a ≠ 0 :=
  ne_of_gt (normR_pos a h)

theorem normR_eq_zero_iff (a : Vec) : normR a = 0 ↔ sqnorm a = 0 := by
  unfold normR
  rw [Real.sqrt_eq_zero (by exact_mod_cast sqnorm_nonneg a)]
  exact_mod_cast Iff.rfl

/-- The rational cosine rank is the signed square of the true cosine value. -/
theorem rank_cosine_eq (q v : Vec) (hq : sqnorm q ≠ 0) (hv : sqnorm v ≠ 0) :
    ((rank .cosine q v : ℚ) : ℝ) = signedSqR (cosR q v) := by
  have hqpos : (0 : ℝ) < ((sqnorm q : ℝ)) := by exact_mod_cast sqnorm_pos_of_ne q hq
  have hvpos : (0 : ℝ) < ((sqnorm v : ℝ)) := by exact_mod_cast sqnorm_pos_of_ne v hv
  have hsq : 0 < normR q := normR_pos q hq
  have hsv : 0 < normR v := normR_pos v hv
  have hden : 0 < normR q * normR v := mul_pos hsq hsv
  have hden2 : (normR q * normR v) ^ 2 = ((sqnorm q : ℝ)) * ((sqnorm v : ℝ)) := by
    rw [mul_pow]
    unfold normR
    rw [Real.sq_sqrt (le_of_lt hqpos), Real.sq_sqrt (le_of_lt hvpos)]
  have hL : ((rank .cosine q v : ℚ) : ℝ) =
      signedSqR ((dot q v : ℝ)) / (((sqnorm q : ℝ)) * ((sqnorm v : ℝ))) := by
    show (((signedSq (dot q v) / (sqnorm q * sqnorm v) : ℚ)) : ℝ) = _
    push_cast
    rw [signedSq_cast]
  rw [hL]
  unfold cosR signedSqR
  rcases lt_or_le ((dot q v : ℝ)) 0 with hneg | hpos
  · rw [if_pos hneg, if_pos (div_neg_of_neg_of_pos hneg hden)]
    rw [div_pow, hden2]
    field_simp
  · rw [if_neg (not_lt.2 hpos), if_neg (not_lt.2 (div_nonneg hpos (le_of_lt hden)))]
    rw [div_pow, hden2]

/-- Comparisons of the rational rank agree with comparisons of the true
metric similarity (for cosine this needs the norms to be nonzero). -/
theorem rank_le_iff (m : Metric) (q v w : Vec)
    (hq : m = .cosine → sqnorm q ≠ 0) (hv : m = .cosine → sqnorm v ≠ 0)
    (hw : m = .cosine → sqnorm w ≠ 0) :
    rank m q v ≤ rank m q w ↔ simR m q v ≤ simR m q w := by
  cases m with
  | cosine =>
    rw [← Rat.cast_le (K := ℝ), rank_cosine_eq q v (hq rfl) (hv rfl),
      rank_cosine_eq q w (hq rfl) (hw rfl)]
    exact signedSqR_le_iff
  | dotProduct =>
    simp only [rank, simR]
    exact (Rat.cast_le (K := ℝ)).symm
  | euclidean =>
    simp only [rank, simR, distR]
    constructor
    · intro h
      have h1 : sqdist q w ≤ sqdist q v := by linarith [neg_le_neg_iff.mp h]
      have h2 : ((sqdist q w : ℝ)) ≤ ((sqdist q v : ℝ)) := by exact_mod_cast h1
      have := Real.sqrt_le_sqrt h2
      linarith
    · intro h
      by_contra hcon
      push_neg at hcon
      have h1 : sqdist q v < sqdist q w := by linarith [neg_lt_neg_iff.mp hcon]
      have h2 : ((sqdist q v : ℝ)) < ((sqdist q w : ℝ)) := by exact_mod_cast h1
      have := Real.sqrt_lt_sqrt (by exact_mod_cast sqdist_nonneg q v) h2
      linarith

theorem rank_eq_iff (m : Metric) (q v w : Vec)
    (hq : m = .cosine → sqnorm q ≠ 0) (hv : m = .cosine → sqnorm v ≠ 0)
    (hw : m = .cosine → sqnorm w ≠ 0) :
    rank m q v = rank m q w ↔ simR m q v = simR m q w := by
  constructor
  · intro h
    exact le_antisymm ((rank_le_iff m q v w hq hv hw).1 (le_of_eq h))
      ((rank_le_iff m q w v hq hw hv).1 (le_of_eq h.symm))
  · intro h
    exact le_antisymm ((rank_le_iff m q v w hq hv hw).2 (le_of_eq h))
      ((rank_le_iff m q w v hq hw hv).2 (le_of_eq h.symm))

theorem rank_lt_iff (m : Metric) (q v w : Vec)
    (hq : m = .cosine → sqnorm q ≠ 0) (hv : m = .cosine → sqnorm v ≠ 0)
    (hw : m = .cosine → sqnorm w ≠ 0) :
    rank m q v < rank m q w ↔ simR m q v < simR m q w := by
  rw [lt_iff_le_not_le, lt_iff_le_not_le,
    rank_le_iff m q v w hq hv hw, rank_le_iff m q w v hq hw hv]

/-- Eliminate a successful search: the result is the k-prefix of the sorted
pool, and under cosine all the norms involved are nonzero. -/
theorem search_ok_elim (c : Collection) (q : Vec) (k : ℕ) (l : List QueryResult)
    (h : c.search q k = .ok l) :
    l = (List.insertionSort qrBetter (c.records.map (toResult c.metric q))).take k ∧
    (c.metric = .cosine → sqnorm q ≠ 0 ∧ ∀ r ∈ c.records, sqnorm r.vector ≠ 0) := by
  unfold Collection.search at h
  split_ifs at h with hg
  injection h with h2
  subst h2
  refine ⟨rfl, ?_⟩
  intro hm
  push_neg at hg
  have h3 := hg hm
  push_neg at h3
  exact h3

/-- Every member of a successful search result is the image of a stored
record. -/
theorem search_mem_elim (c : Collection) (q : Vec) (k : ℕ) (l : List QueryResult)
    (h : c.search q k = .ok l) (x : QueryResult) (hx : x ∈ l) :
    ∃ r ∈ c.records, x = toResult c.metric q r := by
  have hl := (search_ok_elim c q k l h).1
  rw [hl] at hx
  have hx2 : x ∈ List.insertionSort qrBetter (c.records.map (toResult c.metric q)) :=
    (List.take_sublist _ _).subset hx
  rw [List.mem_insertionSort] at hx2
  rcases List.mem_map.1 hx2 with ⟨r, hr, hxr⟩
  exact ⟨r, hr, hxr.symm⟩

/-- The implementation ordering implies the specification ordering on true
metric values, for results that carry the rank of their vector. -/
theorem qrBetter_to_metricBetter (m : Metric) (q : Vec) (x y : QueryResult)
    (hx : x.score = rank m q x.vector) (hy : y.score = rank m q y.vector)
    (hq : m = .cosine → sqnorm q ≠ 0)
    (hxv : m = .cosine → sqnorm x.vector ≠ 0)
    (hyv : m = .cosine → sqnorm y.vector ≠ 0)
    (hb : qrBetter x y) : metricBetter m q x y := by
  unfold qrBetter at hb
  rw [hx, hy] at hb
  have fact1 : simR m q y.vector ≤ simR m q x.vector := by
    rcases hb with hlt | ⟨heq, _⟩
    · exact le_of_lt ((rank_lt_iff m q y.vector x.vector hq hyv hxv).1 hlt)
    · exact le_of_eq (((rank_eq_iff m q x.vector y.vector hq hxv hyv).1 heq).symm)
  have fact2 : simR m q x.vector = simR m q y.vector → x.record_id ≤ y.record_id := by
    intro hs
    rcases hb with hlt | ⟨_, hid⟩
    · exact absurd hs (ne_of_gt ((rank_lt_iff m q y.vector x.vector hq hyv hxv).1 hlt))
    · exact hid
  cases m with
  | cosine =>
    exact ⟨fact1, fact2⟩
  | dotProduct =>
    refine ⟨?_, ?_⟩
    · have : ((dot q y.vector : ℝ)) ≤ ((dot q x.vector : ℝ)) := fact1
      exact_mod_cast this
    · intro hdq
      exact fact2 (by simp only [simR]; exact_mod_cast hdq)
  | euclidean =>
    refine ⟨?_, ?_⟩
    · have h1 : - distR q y.vector ≤ - distR q x.vector := fact1
      linarith
    · intro hdq
      exact fact2 (by simp only [simR]; rw [hdq])

/-- C1: on every non-empty collection, a successful search(q, k) returns at
most k results, sorted best-first under the collection's metric
(non-increasing similarity, non-decreasing distance for euclidean), with any
two equal-score results in ascending order of record id. -/
theorem C1_search_sorted (c : Collection) (q : Vec) (k : ℕ) (l : List QueryResult)
    (hne : c.records ≠ []) (h : c.search q k = .ok l) :
    l.length ≤ k ∧ l.Pairwise (metricBetter c.metric q) := by
  obtain ⟨hl, hcos⟩ := search_ok_elim c q k l h
  constructor
  · rw [hl]
    exact List.length_take_le k _
  · have hsorted : (List.insertionSort qrBetter
        (c.records.map (toResult c.metric q))).Pairwise qrBetter :=
      List.sorted_insertionSort qrBetter _
    have hpl : l.Pairwise qrBetter := by
      rw [hl]
      exact hsorted.sublist (List.take_sublist _ _)
    refine hpl.imp_of_mem ?_
    intro a b ha hb hab
    rcases search_mem_elim c q k l h a ha with ⟨ra, hra, haeq⟩
    rcases search_mem_elim c q k l h b hb with ⟨rb, hrb, hbeq⟩
    refine qrBetter_to_metricBetter c.metric q a b ?_ ?_
      (fun hm => (hcos hm).1) ?_ ?_ hab
    · rw [haeq]; rfl
    · rw [hbeq]; rfl
    · intro hm
      rw [haeq]
      exact (hcos hm).2 ra hra
    · intro hm
      rw [hbeq]
      exact (hcos hm).2 rb hrb

section MMR

variable {α : Type} {S : Type} [LinearOrderedField S]

theorem pickMMR_cons (score : α → S) (ids : α → ℕ) (c : α) (rest : List α) :
    pickMMR score ids (c :: rest) =
      match pickMMR score ids rest with
      | none => some c
      | some b =>
        if score c < score b ∨ (score b = score c ∧ ids b < ids c) then some b
        else some c := rfl

theorem pickMMR_eq_none (score : α → S) (ids : α → ℕ) :
    ∀ l : List α, pickMMR score ids l = none ↔ l = [] := by
  intro l
  cases l with
  | nil => simp [pickMMR]
  | cons c rest =>
    simp only [pickMMR]
    cases pickMMR score ids rest with
    | none => simp
    | some b =>
      by_cases h : score c < score b ∨ (score b = score c ∧ ids b < ids c) <;> simp [h]

theorem pickMMR_mem (score : α → S) (ids : α → ℕ) :
    ∀ (l : List α) (c : α), pickMMR score ids l = some c → c ∈ l := by
  intro l
  induction l with
  | nil => intro c h; cases h
  | cons a rest ih =>
    intro c h
    cases hrec : pickMMR score ids rest with
    | none =>
      simp only [pickMMR, hrec] at h
      injection h with h2
      rw [← h2]
      exact List.mem_cons_self a rest
    | some b =>
      simp only [pickMMR, hrec] at h
      split_ifs at h with hcond
      · injection h with h2
        rw [← h2]
        exact List.mem_cons_of_mem a (ih b hrec)
      · injection h with h2
        rw [← h2]
        exact List.mem_cons_self a rest

theorem pickMMR_best (score : α → S) (ids : α → ℕ) :
    ∀ (l : List α) (c : α), pickMMR score ids l = some c →
      ∀ x ∈ l, score x < score c ∨ (score x = score c ∧ ids c ≤ ids x) := by
  intro l
  induction l with
  | nil => intro c h; cases h
  | cons a rest ih =>
    intro c h x hx
    cases hrec : pickMMR score ids rest with
    | none =>
      simp only [pickMMR, hrec] at h
      injection h with h2
      subst h2
      have hrest : rest = [] := (pickMMR_eq_none score ids rest).1 hrec
      subst hrest
      rcases List.mem_singleton.1 hx with rfl
      exact Or.inr ⟨rfl, le_refl _⟩
    | some b =>
      simp only [pickMMR, hrec] at h
      have hbest := ih b hrec
      split_ifs at h with hcond
      · injection h with h2
        subst h2
        rcases List.mem_cons.1 hx with rfl | hx2
        · rcases hcond with hlt | ⟨heq, hid⟩
          · exact Or.inl hlt
          · exact Or.inr ⟨heq.symm, le_of_lt hid⟩
        · exact hbest x hx2
      · injection h with h2
        subst h2
        push_neg at hcond
        obtain ⟨hle, hid⟩ := hcond
        rcases List.mem_cons.1 hx with rfl | hx2
        · exact Or.inr ⟨rfl, le_refl _⟩
        · rcases hbest x hx2 with hlt | ⟨heq, hid2⟩
          · rcases lt_or_eq_of_le hle with hbc | hbc
            · exact Or.inl (lt_trans hlt hbc)
            · exact Or.inl (hbc ▸ hlt)
          · rcases lt_or_eq_of_le hle with hbc | hbc
            · exact Or.inl (heq ▸ hbc)
            · exact Or.inr ⟨heq.trans hbc, le_trans (hid hbc) hid2⟩

/-- The implementation of MMR satisfies the iteration of the spec. -/
theorem mmrSelect_spec [DecidableEq α] (lam : S) (rel : α → S) (sim : α → α → S)
    (ids : α → ℕ) :
    ∀ (k : ℕ) (sel rem : List α),
      MMRSpec lam rel sim ids k sel rem (mmrSelect lam rel sim ids k sel rem) := by
  intro k
  induction k with
  | zero => intro sel rem; exact MMRSpec.stop sel rem
  | succ k ih =>
    intro sel rem
    cases hrem : rem with
    | nil =>
      have hpick : pickMMR (mmrScore lam rel sim sel) ids ([] : List α) = none := rfl
      show MMRSpec lam rel sim ids (k + 1) sel []
        (mmrSelect lam rel sim ids (k + 1) sel [])
      simp only [mmrSelect, hpick]
      exact MMRSpec.exhausted k sel
    | cons a rest =>
      rcases hpick : pickMMR (mmrScore lam rel sim sel) ids (a :: rest) with _ | c
      · exact absurd ((pickMMR_eq_none _ _ _).1 hpick) (List.cons_ne_nil a rest)
      · show MMRSpec lam rel sim ids (k + 1) sel (a :: rest)
          (mmrSelect lam rel sim ids (k + 1) sel (a :: rest))
        simp only [mmrSelect, hpick]
        exact MMRSpec.step k sel (a :: rest) c _
          ⟨pickMMR_mem _ _ _ c hpick, pickMMR_best _ _ _ c hpick⟩
          (ih (sel ++ [c]) ((a :: rest).erase c))

/-- MMR stops after k picks or when the candidates run out. -/
theorem mmrSelect_length [DecidableEq α] (lam : S) (rel : α → S) (sim : α → α → S)
    (ids : α → ℕ) :
    ∀ (k : ℕ) (sel rem : List α),
      (mmrSelect lam rel sim ids k sel rem).length = min k rem.length := by
  intro k
  induction k with
  | zero => intro sel rem; simp [mmrSelect]
  | succ k ih =>
    intro sel rem
    cases hrem : rem with
    | nil =>
      have hpick : pickMMR (mmrScore lam rel sim sel) ids ([] : List α) = none := rfl
      simp [mmrSelect, hpick]
    | cons a rest =>
      rcases hpick : pickMMR (mmrScore lam rel sim sel) ids (a :: rest) with _ | c
      · exact absurd ((pickMMR_eq_none _ _ _).1 hpick) (List.cons_ne_nil a rest)
      · have hmem : c ∈ a :: rest := pickMMR_mem _ _ _ c hpick
        have herase : ((a :: rest).erase c).length = (a :: rest).length - 1 :=
          List.length_erase_of_mem hmem
        simp only [mmrSelect, hpick, List.length_cons, ih]
        rw [herase]
        simp only [List.length_cons]
        omega

/-- When no two candidates share an id, the sequence of the spec's loop is
unique. -/
theorem mmrSpec_unique [DecidableEq α] (lam : S) (rel : α → S) (sim : α → α → S)
    (ids : α → ℕ) (k : ℕ) (sel rem out : List α)
    (hspec : MMRSpec lam rel sim ids k sel rem out) :
    ∀ out2, (rem.map ids).Nodup → MMRSpec lam rel sim ids k sel rem out2 → out = out2 := by
  induction hspec with
  | stop selected remaining =>
    intro out2 _ h2
    cases h2
    rfl
  | exhausted k selected =>
    intro out2 _ h2
    cases h2 with
    | exhausted => rfl
    | step _ _ _ c _ hbest _ => exact absurd hbest.1 (List.not_mem_nil c)
  | step k selected remaining c out hbest hrec ih =>
    intro out2 hnodup h2
    cases h2 with
    | exhausted => exact absurd hbest.1 (List.not_mem_nil c)
    | step _ _ _ c2 out3 hbest2 hrec2 =>
      have hcc : c = c2 := by
        rcases hbest.2 c2 hbest2.1 with hlt | ⟨heq, hid⟩
        · rcases hbest2.2 c hbest.1 with hlt2 | ⟨heq2, hid2⟩
          · exact absurd (lt_trans hlt hlt2) (lt_irrefl _)
          · exact absurd hlt (by rw [heq2]; exact lt_irrefl _)
        · rcases hbest2.2 c hbest.1 with hlt2 | ⟨heq2, hid2⟩
          · exact absurd (heq ▸ hlt2) (lt_irrefl _)
          · exact List.inj_on_of_nodup_map hnodup hbest.1 hbest2.1
              (le_antisymm hid hid2)
      subst hcc
      have hnodup2 : ((remaining.erase c).map ids).Nodup :=
        hnodup.sublist ((List.erase_sublist c remaining).map ids)
      rw [ih out3 hnodup2 hrec2]

theorem mmrScore_one (rel : α → S) (sim : α → α → S) (sel : List α) (c : α) :
    mmrScore 1 rel sim sel c = rel c := by
  unfold mmrScore
  ring

/-- On a pool already sorted best-first for the score (with ascending-id
tie-break), the picker takes the head. -/
theorem pickMMR_of_pairwise (score : α → S) (ids : α → ℕ) :
    ∀ (c : α) (rest : List α),
      (c :: rest).Pairwise
        (fun x y => score y < score x ∨ (score x = score y ∧ ids x ≤ ids y)) →
      pickMMR score ids (c :: rest) = some c := by
  intro c rest
  induction rest generalizing c with
  | nil => intro _; rfl
  | cons d rest2 ih =>
    intro hpair
    have htail := List.Pairwise.of_cons hpair
    have hcd := List.rel_of_pairwise_cons hpair (List.mem_cons_self d rest2)
    have hrec : pickMMR score ids (d :: rest2) = some d := ih d htail
    rw [pickMMR_cons, hrec]
    show (if score c < score d ∨ (score d = score c ∧ ids d < ids c) then some d
      else some c) = some c
    rw [if_neg]
    push_neg
    constructor
    · rcases hcd with hlt | ⟨heq, _⟩
      · exact le_of_lt hlt
      · exact le_of_eq heq.symm
    · intro heq
      rcases hcd with hlt | ⟨_, hid⟩
      · exact absurd heq (ne_of_lt hlt)
      · exact hid

/-- With lambda = 1 the MMR iteration takes the k-prefix of a pool that is
already sorted by relevance with ascending-id tie-break. -/
theorem mmrSelect_one [DecidableEq α] (rel : α → S) (sim : α → α → S) (ids : α → ℕ) :
    ∀ (rem : List α) (k : ℕ) (sel : List α),
      rem.Pairwise (fun x y => rel y < rel x ∨ (rel x = rel y ∧ ids x ≤ ids y)) →
      mmrSelect 1 rel sim ids k sel rem = rem.take k := by
  intro rem
  induction rem with
  | nil =>
    intro k sel _
    cases k with
    | zero => rfl
    | succ k => rfl
  | cons c rest ih =>
    intro k sel hpair
    cases k with
    | zero => rfl
    | succ k =>
      have hscore : mmrScore 1 rel sim sel = rel := funext (mmrScore_one rel sim sel)
      have hpick : pickMMR (mmrScore 1 rel sim sel) ids (c :: rest) = some c := by
        rw [hscore]
        exact pickMMR_of_pairwise rel ids c rest hpair
      simp only [mmrSelect, hpick]
      rw [List.erase_cons_head, List.take_succ_cons,
        ih k (sel ++ [c]) (List.Pairwise.of_cons hpair)]

/-- When the pool is smaller than k, MMR returns a permutation of the whole
pool. -/
theorem mmrSelect_perm [DecidableEq α] (lam : S) (rel : α → S) (sim : α → α → S)
    (ids : α → ℕ) :
    ∀ (k : ℕ) (sel rem : List α), rem.length ≤ k →
      (mmrSelect lam rel sim ids k sel rem).Perm rem := by
  intro k
  induction k with
  | zero =>
    intro sel rem hlen
    rw [List.length_eq_zero.1 (Nat.le_zero.1 hlen)]
    exact List.Perm.refl _
  | succ k ih =>
    intro sel rem hlen
    cases hrem : rem with
    | nil =>
      have hpick : pickMMR (mmrScore lam rel sim sel) ids ([] : List α) = none := rfl
      simp [mmrSelect, hpick]
    | cons a rest =>
      rcases hpick : pickMMR (mmrScore lam rel sim sel) ids (a :: rest) with _ | c
      · exact absurd ((pickMMR_eq_none _ _ _).1 hpick) (List.cons_ne_nil a rest)
      · have hmem : c ∈ a :: rest := pickMMR_mem _ _ _ c hpick
        rw [hrem] at hlen
        have hlen2 : ((a :: rest).erase c).length ≤ k := by
          rw [List.length_erase_of_mem hmem]
          simp only [List.length_cons] at hlen ⊢
          omega
        simp only [mmrSelect, hpick]
        exact ((ih (sel ++ [c]) ((a :: rest).erase c) hlen2).cons c).trans
          (List.perm_cons_erase hmem).symm

end MMR

theorem metric_dot_ne_cos : (Metric.dotProduct = Metric.cosine) = False :=
  eq_false fun h => Metric.noConfusion h

theorem metric_euc_ne_cos : (Metric.euclidean = Metric.cosine) = False :=
  eq_false fun h => Metric.noConfusion h

/-- The implementation ordering implies the relevance ordering used by the
MMR comparison, for results that carry the rank of their vector. -/
theorem qrBetter_to_relBetter (m : Metric) (q : Vec) (x y : QueryResult)
    (hx : x.score = rank m q x.vector) (hy : y.score = rank m q y.vector)
    (hq : m = .cosine → sqnorm q ≠ 0)
    (hxv : m = .cosine → sqnorm x.vector ≠ 0)
    (hyv : m = .cosine → sqnorm y.vector ≠ 0)
    (hb : qrBetter x y) :
    simR m q y.vector < simR m q x.vector ∨
      (simR m q x.vector = simR m q y.vector ∧ x.record_id ≤ y.record_id) := by
  unfold qrBetter at hb
  rw [hx, hy] at hb
  rcases hb with hlt | ⟨heq, hid⟩
  · exact Or.inl ((rank_lt_iff m q y.vector x.vector hq hyv hxv).1 hlt)
  · exact Or.inr ⟨(rank_eq_iff m q x.vector y.vector hq hxv hyv).1 heq, hid⟩

/-- C2: the MMR re-ranker produces exactly the sequence of the spec's
iteration: on each round the selected candidate maximizes
lam * rel - (1 - lam) * redundancy over the remaining candidates with ties
broken by ascending id, until k picks or exhaustion; when ids are distinct
this sequence is unique. -/
theorem C2_mmr_spec (S : Type) [LinearOrderedField S] (rel : QueryResult → S)
    (sim : QueryResult → QueryResult → S) (lam : S) (pool : List QueryResult)
    (k : ℕ) (h0 : 0 ≤ lam) (h1 : lam ≤ 1) :
    MMRSpec lam rel sim QueryResult.record_id k [] pool
        (mmrSelect lam rel sim QueryResult.record_id k [] pool) ∧
      (mmrSelect lam rel sim QueryResult.record_id k [] pool).length =
        min k pool.length ∧
      ((pool.map QueryResult.record_id).Nodup →
        ∀ out, MMRSpec lam rel sim QueryResult.record_id k [] pool out →
          out = mmrSelect lam rel sim QueryResult.record_id k [] pool) :=
  ⟨mmrSelect_spec lam rel sim QueryResult.record_id k [] pool,
    mmrSelect_length lam rel sim QueryResult.record_id k [] pool,
    fun hn out hout =>
      mmrSpec_unique lam rel sim QueryResult.record_id k [] pool out hout
        (mmrSelect lam rel sim QueryResult.record_id k [] pool) hn
        (mmrSelect_spec lam rel sim QueryResult.record_id k [] pool)⟩

/-- C3: with lambda_mult = 1 the MMR re-ranking of the fetch_k candidate
pool equals the plain similarity top-k, for every fetch_k at least k. -/
theorem C3_lambda_one (c : Collection) (q : Vec) (k fk : ℕ) (hk : k ≤ fk)
    (pool res : List QueryResult)
    (hpool : c.search q fk = .ok pool) (hres : c.search q k = .ok res) :
    mmrSelect (1 : ℝ) (fun x => simR c.metric q x.vector)
      (fun x y => simR c.metric x.vector y.vector)
      QueryResult.record_id k [] pool = res := by
  obtain ⟨hpl, hcos⟩ := search_ok_elim c q fk pool hpool
  obtain ⟨hrl, -⟩ := search_ok_elim c q k res hres
  have hsorted : pool.Pairwise qrBetter := by
    rw [hpl]
    exact (List.sorted_insertionSort qrBetter _).sublist (List.take_sublist _ _)
  have hpair : pool.Pairwise (fun x y =>
      simR c.metric q y.vector < simR c.metric q x.vector ∨
        (simR c.metric q x.vector = simR c.metric q y.vector ∧
          x.record_id ≤ y.record_id)) := by
    refine hsorted.imp_of_mem ?_
    intro a b ha hb hab
    rcases search_mem_elim c q fk pool hpool a ha with ⟨ra, hra, haeq⟩
    rcases search_mem_elim c q fk pool hpool b hb with ⟨rb, hrb, hbeq⟩
    refine qrBetter_to_relBetter c.metric q a b ?_ ?_ (fun hm => (hcos hm).1) ?_ ?_ hab
    · rw [haeq]
      rfl
    · rw [hbeq]
      rfl
    · intro hm
      rw [haeq]
      exact (hcos hm).2 ra hra
    · intro hm
      rw [hbeq]
      exact (hcos hm).2 rb hrb
  rw [mmrSelect_one (fun x => simR c.metric q x.vector)
    (fun x y => simR c.metric x.vector y.vector) QueryResult.record_id pool k [] hpair]
  rw [hpl, hrl, List.take_take]
  have h2 : k ⊓ fk = k := inf_eq_left.2 hk
  rw [h2]

/-- C7: when the pool has fewer than k candidates, MMR returns all of them
(a permutation of the pool) with no padding. -/
theorem C7_mmr_exhausts (S : Type) [LinearOrderedField S] (lam : S)
    (rel : QueryResult → S) (sim : QueryResult → QueryResult → S)
    (pool : List QueryResult) (k : ℕ) (h : pool.length < k) :
    (mmrSelect lam rel sim QueryResult.record_id k [] pool).length = pool.length ∧
      (mmrSelect lam rel sim QueryResult.record_id k [] pool).Perm pool :=
  have hp := mmrSelect_perm lam rel sim QueryResult.record_id k [] pool (le_of_lt h)
  ⟨hp.length_eq, hp⟩

/-- C5: insert fails with DimensionMismatch on a wrong-length vector and
with DuplicateId on a present id, leaving the collection unchanged in both
cases, and otherwise succeeds by appending the record. -/
theorem C5_insert (c : Collection) (r : VectorRecord) :
    (r.vector.length ≠ c.dim → c.insertRun r = (c, some .DimensionMismatch)) ∧
      (r.vector.length = c.dim → (∃ s ∈ c.records, s.id = r.id) →
        c.insertRun r = (c, some .DuplicateId)) ∧
      (r.vector.length = c.dim → (∀ s ∈ c.records, s.id ≠ r.id) →
        (c.insertRun r).2 = none ∧ (c.insertRun r).1.records = c.records ++ [r]) := by
  refine ⟨?_, ?_, ?_⟩
  · intro h
    unfold Collection.insertRun Collection.insert
    rw [dif_neg h]
  · intro h1 h2
    unfold Collection.insertRun Collection.insert
    rw [dif_pos h1, dif_pos h2]
  · intro h1 h2
    unfold Collection.insertRun Collection.insert
    rw [dif_pos h1, dif_neg (by rintro ⟨s, hs, hid⟩; exact h2 s hs hid)]
    exact ⟨rfl, rfl⟩

/-- C6: the cosine similarity computation fails with ZeroVector exactly when
one of the two vectors has zero norm, and otherwise returns
dot(a,b) / (norm a * norm b). -/
theorem C6_cosine (a b : Vec) :
    (cosineSimE a b = .error .ZeroVector ↔ normR a = 0 ∨ normR b = 0) ∧
      (normR a ≠ 0 → normR b ≠ 0 →
        cosineSimE a b = .ok (((dot a b : ℝ)) / (normR a * normR b))) := by
  constructor
  · unfold cosineSimE
    split_ifs with h
    · constructor
      · intro _
        rcases h with h | h
        · exact Or.inl ((normR_eq_zero_iff a).2 h)
        · exact Or.inr ((normR_eq_zero_iff b).2 h)
      · intro _
        rfl
    · constructor
      · intro hc
        exact absurd hc (by simp)
      · intro hc
        rcases hc with hc | hc
        · exact absurd (Or.inl ((normR_eq_zero_iff a).1 hc)) h
        · exact absurd (Or.inr ((normR_eq_zero_iff b).1 hc)) h
  · intro ha hb
    unfold cosineSimE
    rw [if_neg]
    rintro (h | h)
    · exact ha ((normR_eq_zero_iff a).2 h)
    · exact hb ((normR_eq_zero_iff b).2 h)

theorem rank_cosine_self (v : Vec) (hv : sqnorm v ≠ 0) : rank .cosine v v = 1 := by
  show signedSq (dot v v) / (sqnorm v * sqnorm v) = 1
  have h1 : ¬ dot v v < 0 := not_lt.2 (sqnorm_nonneg v)
  unfold signedSq
  rw [if_neg h1]
  show sqnorm v ^ 2 / (sqnorm v * sqnorm v) = 1
  rw [sq]
  exact div_self (mul_ne_zero hv hv)

theorem rank_cosine_le_one (v w : Vec) (hv : sqnorm v ≠ 0) (hw : sqnorm w ≠ 0) :
    rank .cosine v w ≤ 1 := by
  show signedSq (dot v w) / (sqnorm v * sqnorm w) ≤ 1
  have hpos : 0 < sqnorm v * sqnorm w :=
    mul_pos (sqnorm_pos_of_ne v hv) (sqnorm_pos_of_ne w hw)
  rw [div_le_one hpos]
  unfold signedSq
  split_ifs with h
  · nlinarith [sq_nonneg (dot v w)]
  · exact dot_sq_le v w

theorem rank_cosine_lt_one (v w : Vec) (hv : sqnorm v ≠ 0) (hw : sqnorm w ≠ 0)
    (hne : cosR v w ≠ 1) : rank .cosine v w < 1 := by
  rcases lt_or_eq_of_le (rank_cosine_le_one v w hv hw) with h | h
  · exact h
  · exfalso
    apply hne
    have hcast : ((rank .cosine v w : ℚ) : ℝ) = 1 := by
      rw [h]
      norm_num
    rw [rank_cosine_eq v w hv hw] at hcast
    have h1 : signedSqR 1 = 1 := by
      unfold signedSqR
      rw [if_neg (by norm_num)]
      norm_num
    rw [← h1] at hcast
    exact signedSqR_inj.1 hcast

/-- In a best-first sorted list, an element strictly better than every other
element is the head. -/
theorem sorted_head_of_strict_max (l : List QueryResult) (e : QueryResult)
    (hsorted : l.Pairwise qrBetter) (hmem : e ∈ l)
    (hmax : ∀ x ∈ l, x = e ∨ x.score < e.score) :
    l.head? = some e := by
  cases l with
  | nil => cases hmem
  | cons h t =>
    rcases hmax h (List.mem_cons_self h t) with rfl | hlt
    · rfl
    · rcases List.mem_cons.1 hmem with rfl | het
      · exact absurd hlt (lt_irrefl _)
      · have hrel : qrBetter h e := List.rel_of_pairwise_cons hsorted het
        unfold qrBetter at hrel
        rcases hrel with h2 | ⟨h2, _⟩
        · exact absurd (lt_trans hlt h2) (lt_irrefl _)
        · rw [h2] at hlt
          exact absurd hlt (lt_irrefl _)

/-- C4 (amended): in a cosine collection whose stored vectors are nonzero,
inserting a record with a nonzero vector v whose cosine similarity to every
stored vector differs from 1, and then searching with query v and k at least
1, returns the inserted record as the first result (with cosine score 1). -/
theorem C4_roundtrip_cosine (c c2 : Collection) (i : ℕ) (v : Vec)
    (p : List (String × String)) (k : ℕ)
    (hm : c.metric = .cosine)
    (hv : sqnorm v ≠ 0)
    (hrec : ∀ r ∈ c.records, sqnorm r.vector ≠ 0)
    (hcos : ∀ r ∈ c.records, cosR v r.vector ≠ 1)
    (hins : c.insert ⟨i, v, p⟩ = .ok c2)
    (hk : 1 ≤ k) :
    (c2.search v k).map List.head? = .ok (some ⟨i, 1, v, p⟩) := by
  unfold Collection.insert at hins
  split_ifs at hins with h1 h2
  injection hins with h3
  subst h3
  unfold Collection.search
  simp only [hm]
  rw [if_neg ?hguard]
  case hguard =>
    rintro ⟨-, h0 | hex⟩
    · exact hv h0
    · rcases hex with ⟨s, hs, hs0⟩
      rcases List.mem_append.1 hs with hs | hs
      · exact hrec s hs hs0
      · rw [List.mem_singleton.1 hs] at hs0
        exact hv hs0
  have he : toResult .cosine v ⟨i, v, p⟩ = (⟨i, 1, v, p⟩ : QueryResult) := by
    unfold toResult
    rw [rank_cosine_self v hv]
  have hmem : (⟨i, 1, v, p⟩ : QueryResult) ∈
      List.insertionSort qrBetter
        (List.map (toResult .cosine v) (c.records ++ [⟨i, v, p⟩])) := by
    rw [List.mem_insertionSort, List.map_append]
    refine List.mem_append.2 (Or.inr ?_)
    rw [← he]
    simp
  have hmax : ∀ x ∈ List.insertionSort qrBetter
      (List.map (toResult .cosine v) (c.records ++ [⟨i, v, p⟩])),
      x = (⟨i, 1, v, p⟩ : QueryResult) ∨ x.score < (⟨i, 1, v, p⟩ : QueryResult).score := by
    intro x hx
    rw [List.mem_insertionSort, List.map_append] at hx
    rcases List.mem_append.1 hx with hx | hx
    · rcases List.mem_map.1 hx with ⟨s, hs, hxs⟩
      refine Or.inr ?_
      rw [← hxs]
      show rank .cosine v s.vector < (1 : ℚ)
      exact rank_cosine_lt_one v s.vector hv (hrec s hs) (hcos s hs)
    · refine Or.inl ?_
      simp only [List.map_cons, List.map_nil, List.mem_singleton] at hx
      rw [hx, he]
  have hhead := sorted_head_of_strict_max _ _ (List.sorted_insertionSort qrBetter _)
    hmem hmax
  obtain ⟨t, ht⟩ : ∃ t, List.insertionSort qrBetter
      (List.map (toResult .cosine v) (c.records ++ [⟨i, v, p⟩])) =
      (⟨i, 1, v, p⟩ : QueryResult) :: t := by
    cases hs : List.insertionSort qrBetter
        (List.map (toResult .cosine v) (c.records ++ [⟨i, v, p⟩])) with
    | nil =>
      rw [hs] at hhead
      cases hhead
    | cons a t =>
      rw [hs] at hhead
      injection hhead with h4
      exact ⟨t, by rw [h4]⟩
  rw [ht]
  cases k with
  | zero => exact absurd hk (by norm_num)
  | succ k2 =>
    rw [List.take_succ_cons]
    rfl

/-- The trace of a failed pipeline run ends in the Failed state and never
reaches Done. -/
theorem answerTrace_error_shape (embed : String → Except VErr Vec)
    (generate : String → Except VErr String) (c : Collection)
    (cfg : RetrievalConfig) (question : String) (e : VErr)
    (he : (answerTrace embed generate c cfg question).2 = .error e) :
    (answerTrace embed generate c cfg question).1.getLast? = some .Failed ∧
      PState.Done ∉ (answerTrace embed generate c cfg question).1 := by
  unfold answerTrace at he ⊢
  cases hemb : embed question with
  | error e2 =>
    simp only [hemb]
    decide
  | ok qv =>
    simp only [hemb] at he ⊢
    cases hst : cfg.search_type with
    | similarity =>
      simp only [hst] at he ⊢
      cases hsearch : c.search qv cfg.k with
      | error e2 =>
        simp only [hsearch]
        decide
      | ok docs =>
        simp only [hsearch] at he ⊢
        cases hgen : generate (buildPrompt docs question) with
        | error e2 =>
          simp only [hgen]
          decide
        | ok ans =>
          simp [hgen] at he
    | mmr =>
      simp only [hst] at he ⊢
      cases hsearch : c.search qv cfg.fetch_k with
      | error e2 =>
        simp only [hsearch]
        decide
      | ok pool =>
        simp only [hsearch] at he ⊢
        by_cases hlam : 0 ≤ cfg.lambda_mult ∧ cfg.lambda_mult ≤ 1
        · rw [if_pos hlam] at he ⊢
          cases hgen : generate (buildPrompt (mmrSelect ((cfg.lambda_mult : ℝ))
              (fun x => simR c.metric qv x.vector)
              (fun x y => simR c.metric x.vector y.vector)
              QueryResult.record_id cfg.k [] pool) question) with
          | error e2 =>
            simp only [hgen]
            decide
          | ok ans =>
            simp [hgen] at he
        · rw [if_neg hlam]
          decide

/-- C8: whenever a stage of the pipeline fails, answer aborts: the embedding,
retrieving, reranking-configuration and generating failures each produce
exactly the prefix of states up to the failing stage followed by Failed, the
result is the error alone, and in every failing run the trace ends in Failed,
never reaches Done, and no RAGResult is returned. -/
theorem C8_pipeline_failure (embed : String → Except VErr Vec)
    (generate : String → Except VErr String) (c : Collection)
    (cfg : RetrievalConfig) (question : String) :
    (∀ e, embed question = .error e →
      answerTrace embed generate c cfg question =
        ([.Idle, .Embedding, .Failed], .error e)) ∧
      (∀ e qv, embed question = .ok qv → cfg.search_type = .similarity →
        c.search qv cfg.k = .error e →
        answerTrace embed generate c cfg question =
          ([.Idle, .Embedding, .Retrieving, .Failed], .error e)) ∧
      (∀ e qv, embed question = .ok qv → cfg.search_type = .mmr →
        c.search qv cfg.fetch_k = .error e →
        answerTrace embed generate c cfg question =
          ([.Idle, .Embedding, .Retrieving, .Failed], .error e)) ∧
      (∀ qv pool, embed question = .ok qv → cfg.search_type = .mmr →
        c.search qv cfg.fetch_k = .ok pool →
        ¬(0 ≤ cfg.lambda_mult ∧ cfg.lambda_mult ≤ 1) →
        answerTrace embed generate c cfg question =
          ([.Idle, .Embedding, .Retrieving, .Reranking, .Failed],
            .error .InvalidConfig)) ∧
      (∀ e qv docs, embed question = .ok qv → cfg.search_type = .similarity →
        c.search qv cfg.k = .ok docs →
        generate (buildPrompt docs question) = .error e →
        answerTrace embed generate c cfg question =
          ([.Idle, .Embedding, .Retrieving, .Prompting, .Generating, .Failed],
            .error e)) ∧
      (∀ e, (answerTrace embed generate c cfg question).2 = .error e →
        (answerTrace embed generate c cfg question).1.getLast? = some .Failed ∧
          PState.Done ∉ (answerTrace embed generate c cfg question).1 ∧
          ∀ res, (answerTrace embed generate c cfg question).2 ≠ .ok res) := by
  refine ⟨?_, ?_, ?_, ?_, ?_, ?_⟩
  · intro e he
    unfold answerTrace
    simp only [he]
  · intro e qv hemb hst hsearch
    unfold answerTrace
    simp only [hemb, hst, hsearch]
  · intro e qv hemb hst hsearch
    unfold answerTrace
    simp only [hemb, hst, hsearch]
  · intro qv pool hemb hst hsearch hlam
    unfold answerTrace
    simp only [hemb, hst, hsearch]
    rw [if_neg hlam]
  · intro e qv docs hemb hst hsearch hgen
    unfold answerTrace
    simp only [hemb, hst, hsearch, hgen]
  · intro e he
    obtain ⟨hlast, hdone⟩ := answerTrace_error_shape embed generate c cfg question e he
    refine ⟨hlast, hdone, ?_⟩
    intro res hres
    rw [he] at hres
    exact absurd hres (by simp)

/-- C9: on success the pipeline returns exactly the generation collaborator's
raw response to the constructed prompt, and exactly the sequence the
Retriever returns for the question, unmodified. -/
theorem C9_output (embed : String → Except VErr Vec)
    (generate : String → Except VErr String) (c : Collection)
    (cfg : RetrievalConfig) (question : String) (res : RAGResult)
    (h : (answerTrace embed generate c cfg question).2 = .ok res) :
    c.retrieve embed cfg question = .ok res.source_documents ∧
      generate (buildPrompt res.source_documents question) = .ok res.answer_text := by
  unfold answerTrace at h
  unfold Collection.retrieve
  cases hemb : embed question with
  | error e =>
    simp [hemb] at h
  | ok qv =>
    simp only [hemb] at h ⊢
    cases hst : cfg.search_type with
    | similarity =>
      simp only [hst] at h ⊢
      cases hsearch : c.search qv cfg.k with
      | error e =>
        simp [hsearch] at h
      | ok docs =>
        simp only [hsearch] at h ⊢
        cases hgen : generate (buildPrompt docs question) with
        | error e =>
          simp [hgen] at h
        | ok ans =>
          simp only [hgen] at h
          injection h with h2
          subst h2
          exact ⟨rfl, hgen⟩
    | mmr =>
      simp only [hst] at h ⊢
      cases hsearch : c.search qv cfg.fetch_k with
      | error e =>
        simp [hsearch] at h
      | ok pool =>
        simp only [hsearch] at h ⊢
        by_cases hlam : 0 ≤ cfg.lambda_mult ∧ cfg.lambda_mult ≤ 1
        · rw [if_pos hlam] at h ⊢
          cases hgen : generate (buildPrompt (mmrSelect ((cfg.lambda_mult : ℝ))
              (fun x => simR c.metric qv x.vector)
              (fun x y => simR c.metric x.vector y.vector)
              QueryResult.record_id cfg.k [] pool) question) with
          | error e =>
            simp [hgen] at h
          | ok ans =>
            simp only [hgen] at h
            injection h with h2
            subst h2
            exact ⟨rfl, hgen⟩
        · rw [if_neg hlam] at h
          simp at h

/-- C10: the question-answering chain of the notebook reads only the
docsearch index built by VectorstoreIndexCreator: invoking it leaves the
environment (in particular the Qdrant collection my_movies) unchanged, and
its outcome is identical for any two environments that agree on docsearch,
whatever their Qdrant collections contain. -/
theorem C10_chain_frame (env1 env2 : NotebookEnv)
    (embed : String → Except VErr Vec) (generate : String → Except VErr String)
    (question : String) (hsame : env1.docsearch = env2.docsearch) :
    (chainInvoke env1 embed generate question).1 = env1 ∧
      (chainInvoke env1 embed generate question).2 =
        (chainInvoke env2 embed generate question).2 := by
  unfold chainInvoke
  rw [hsame]
  exact ⟨rfl, rfl⟩

/-- Witness for C1 at a concrete collection and query. -/
theorem C1_search_sorted_witness :
    sampleCol.records ≠ [] ∧
      ([⟨0, 1, [1, 0], [("title", "a")]⟩, ⟨1, 0, [0, 1], [("title", "b")]⟩] :
          List QueryResult).length ≤ 2 ∧
      ([⟨0, 1, [1, 0], [("title", "a")]⟩, ⟨1, 0, [0, 1], [("title", "b")]⟩] :
          List QueryResult).Pairwise (metricBetter sampleCol.metric [1, 0]) := by
  have hne : sampleCol.records ≠ [] := by simp [sampleCol]
  have hs : sampleCol.search [1, 0] 2 =
      .ok [⟨0, 1, [1, 0], [("title", "a")]⟩, ⟨1, 0, [0, 1], [("title", "b")]⟩] := by
    norm_num [Collection.search, sampleCol, sampleRec0, sampleRec1, toResult, rank, dot,
      List.insertionSort, List.orderedInsert, qrBetter, metric_dot_ne_cos]
  have h := C1_search_sorted sampleCol [1, 0] 2 _ hne hs
  exact ⟨hne, h.1, h.2⟩

/-- Witness for C2 at a concrete pool, lambda and scoring functions. -/
theorem C2_mmr_spec_witness :
    MMRSpec (1 / 2 : ℚ) wrel wsim QueryResult.record_id 2 [] wpool
        (mmrSelect (1 / 2 : ℚ) wrel wsim QueryResult.record_id 2 [] wpool) ∧
      (mmrSelect (1 / 2 : ℚ) wrel wsim QueryResult.record_id 2 [] wpool).length =
        min 2 wpool.length ∧
      ((wpool.map QueryResult.record_id).Nodup →
        ∀ out, MMRSpec (1 / 2 : ℚ) wrel wsim QueryResult.record_id 2 [] wpool out →
          out = mmrSelect (1 / 2 : ℚ) wrel wsim QueryResult.record_id 2 [] wpool) :=
  C2_mmr_spec ℚ wrel wsim (1 / 2) wpool 2 (by norm_num) (by norm_num)

/-- Witness for C3 at a concrete collection, query and pool. -/
theorem C3_lambda_one_witness :
    mmrSelect (1 : ℝ) (fun x => simR sampleCol.metric [1, 0] x.vector)
        (fun x y => simR sampleCol.metric x.vector y.vector) QueryResult.record_id 1 []
        [⟨0, 1, [1, 0], [("title", "a")]⟩, ⟨1, 0, [0, 1], [("title", "b")]⟩] =
      [⟨0, 1, [1, 0], [("title", "a")]⟩] := by
  have hpool : sampleCol.search [1, 0] 2 =
      .ok [⟨0, 1, [1, 0], [("title", "a")]⟩, ⟨1, 0, [0, 1], [("title", "b")]⟩] := by
    norm_num [Collection.search, sampleCol, sampleRec0, sampleRec1, toResult, rank, dot,
      List.insertionSort, List.orderedInsert, qrBetter, metric_dot_ne_cos]
  have hres : sampleCol.search [1, 0] 1 = .ok [⟨0, 1, [1, 0], [("title", "a")]⟩] := by
    norm_num [Collection.search, sampleCol, sampleRec0, sampleRec1, toResult, rank, dot,
      List.insertionSort, List.orderedInsert, qrBetter, metric_dot_ne_cos]
  exact C3_lambda_one sampleCol [1, 0] 1 2 (by norm_num) _ _ hpool hres

/-- Counterexample for C4 as stated: under the dot-product metric the stored
vector [2] outscores the freshly inserted [1] on query [1], and under cosine
the stored parallel vector [2] ties at similarity 1 and wins the
ascending-id tie-break, so in both cases the first result is record 0, not
the inserted record 1. -/
theorem C4_counterexample :
    (cex4Dot.insertRun ⟨1, [1], []⟩).2 = none ∧
      (cex4Dot.insertRun ⟨1, [1], []⟩).1.search [1] 1 = .ok [⟨0, 2, [2], []⟩] ∧
      (cex4Cos.insertRun ⟨1, [1], []⟩).2 = none ∧
      (cex4Cos.insertRun ⟨1, [1], []⟩).1.search [1] 1 = .ok [⟨0, 1, [2], []⟩] ∧
      (⟨0, 2, [2], []⟩ : QueryResult).record_id ≠ 1 ∧
      (⟨0, 1, [2], []⟩ : QueryResult).record_id ≠ 1 := by
  refine ⟨rfl, ?_, rfl, ?_, by decide, by decide⟩
  · norm_num [Collection.insertRun, Collection.insert, Collection.search, cex4Dot,
      cex4Rec, toResult, rank, dot, List.insertionSort, List.orderedInsert, qrBetter,
      metric_dot_ne_cos]
  · norm_num [Collection.insertRun, Collection.insert, Collection.search, cex4Cos,
      cex4Rec, toResult, rank, dot, sqnorm, signedSq, List.insertionSort,
      List.orderedInsert, qrBetter]

/-- Witness for the amended C4 at a concrete cosine collection. -/
theorem C4_roundtrip_cosine_witness :
    sqnorm ([0, 1] : Vec) ≠ 0 ∧
      (c4wCol2.search [0, 1] 1).map List.head? = .ok (some ⟨1, 1, [0, 1], []⟩) := by
  have hv : sqnorm ([0, 1] : Vec) ≠ 0 := by norm_num [sqnorm, dot]
  refine ⟨hv, C4_roundtrip_cosine c4wCol c4wCol2 1 [0, 1] [] 1 rfl hv ?_ ?_ rfl (le_refl 1)⟩
  · intro r hr
    simp only [c4wCol, List.mem_singleton] at hr
    subst hr
    norm_num [sqnorm, dot]
  · intro r hr
    simp only [c4wCol, List.mem_singleton] at hr
    subst hr
    unfold cosR
    have h0 : dot [0, 1] ([1, 0] : Vec) = 0 := by norm_num [dot]
    rw [h0]
    norm_num

/-- Witness for C5 covering the three contract cases on concrete inputs. -/
theorem C5_insert_witness :
    sampleCol.insertRun ⟨7, [1, 2, 3], []⟩ = (sampleCol, some .DimensionMismatch) ∧
      sampleCol.insertRun ⟨0, [5, 5], []⟩ = (sampleCol, some .DuplicateId) ∧
      (sampleCol.insertRun ⟨2, [5, 5], []⟩).2 = none ∧
      (sampleCol.insertRun ⟨2, [5, 5], []⟩).1.records =
        sampleCol.records ++ [⟨2, [5, 5], []⟩] := by
  refine ⟨(C5_insert sampleCol ⟨7, [1, 2, 3], []⟩).1 (by decide),
    (C5_insert sampleCol ⟨0, [5, 5], []⟩).2.1 (by decide) ⟨sampleRec0, ?_, rfl⟩,
    ((C5_insert sampleCol ⟨2, [5, 5], []⟩).2.2 (by decide) ?_).1,
    ((C5_insert sampleCol ⟨2, [5, 5], []⟩).2.2 (by decide) ?_).2⟩
  · simp [sampleCol]
  · intro s hs
    simp only [sampleCol, List.mem_cons, List.not_mem_nil, or_false] at hs
    rcases hs with rfl | rfl <;> decide
  · intro s hs
    simp only [sampleCol, List.mem_cons, List.not_mem_nil, or_false] at hs
    rcases hs with rfl | rfl <;> decide

/-- Witness for C6 at two concrete nonzero vectors. -/
theorem C6_cosine_witness :
    normR [(1 : ℚ)] ≠ 0 ∧ normR [(2 : ℚ)] ≠ 0 ∧
      cosineSimE [(1 : ℚ)] [(2 : ℚ)] =
        .ok (((dot [(1 : ℚ)] [(2 : ℚ)] : ℚ) : ℝ) /
          (normR [(1 : ℚ)] * normR [(2 : ℚ)])) := by
  have h1 : normR [(1 : ℚ)] ≠ 0 := normR_ne_zero _ (by norm_num [sqnorm, dot])
  have h2 : normR [(2 : ℚ)] ≠ 0 := normR_ne_zero _ (by norm_num [sqnorm, dot])
  exact ⟨h1, h2, (C6_cosine _ _).2 h1 h2⟩

/-- Witness for C7 with a pool of two candidates and k = 3. -/
theorem C7_mmr_exhausts_witness :
    (mmrSelect (1 / 2 : ℚ) wrel wsim QueryResult.record_id 3 [] wpool).length =
        wpool.length ∧
      (mmrSelect (1 / 2 : ℚ) wrel wsim QueryResult.record_id 3 [] wpool).Perm wpool :=
  C7_mmr_exhausts ℚ (1 / 2) wrel wsim wpool 3 (by decide)

/-- Witness for C8: a failing embedding aborts the pipeline at once. -/
theorem C8_pipeline_failure_witness :
    answerTrace (fun _ => .error .EmbeddingUnavailable)
        (fun p => (Except.ok p : Except VErr String)) sampleCol simCfg "q" =
      ([.Idle, .Embedding, .Failed], .error .EmbeddingUnavailable) :=
  (C8_pipeline_failure (fun _ => .error .EmbeddingUnavailable)
    (fun p => (Except.ok p : Except VErr String)) sampleCol simCfg "q").1
    .EmbeddingUnavailable rfl

/-- Witness for C9 on a concrete successful run. -/
theorem C9_output_witness :
    Collection.retrieve sampleCol (fun _ => .ok [1, 0]) simCfg "q" =
        .ok [⟨0, 1, [1, 0], [("title", "a")]⟩] ∧
      (fun p => (Except.ok p : Except VErr String))
          (buildPrompt [⟨0, 1, [1, 0], [("title", "a")]⟩] "q") =
        .ok "title: a Question: q" := by
  have h := C9_output (fun _ => .ok [1, 0]) (fun p => (Except.ok p : Except VErr String))
    sampleCol simCfg "q" ⟨"title: a Question: q", [⟨0, 1, [1, 0], [("title", "a")]⟩]⟩ ?_
  · exact ⟨h.1, h.2⟩
  · norm_num [answerTrace, simCfg, Collection.search, sampleCol, sampleRec0, sampleRec1,
      toResult, rank, dot, List.insertionSort, List.orderedInsert, qrBetter, buildPrompt,
      payloadText, metric_dot_ne_cos]
    rfl

/-- Witness for C10 on two environments differing only in the Qdrant
collection. -/
theorem C10_chain_frame_witness :
    (chainInvoke ⟨cex4Dot, sampleCol⟩ (fun _ => .ok [1, 0])
        (fun p => (Except.ok p : Except VErr String)) "q").1 = ⟨cex4Dot, sampleCol⟩ ∧
      (chainInvoke ⟨cex4Dot, sampleCol⟩ (fun _ => .ok [1, 0])
          (fun p => (Except.ok p : Except VErr String)) "q").2 =
        (chainInvoke ⟨cex4Cos, sampleCol⟩ (fun _ => .ok [1, 0])
          (fun p => (Except.ok p : Except VErr String)) "q").2 :=
  C10_chain_frame ⟨cex4Dot, sampleCol⟩ ⟨cex4Cos, sampleCol⟩ _ _ "q" rfl

end VStore
